import Mathlib

/-!
Verification of the erid-parser public-search scanner
(`scripts/search-public-posts.js`): a shallow embedding of the account
selection policy, the SQLite monotonic-max merge rules, the metric
snapshot write-avoidance logic, album deduplication, the in-flight
message set and the paginated search loop, with theorems checking the
specified properties against these embedded definitions.

Conventions of the embedding: JavaScript numbers that pass the
`Number.isFinite` guards are modelled as `Int`; a value that is
`null`/`undefined`/non-finite on the JS side is `none`.  SQL `NULL` is
likewise `none`.
-/

namespace EridParser

/-- The SQL merge rule applied to every engagement counter column in the
`channel_messages` and `message_metrics` upserts:
`CASE WHEN old IS NULL THEN excluded
      WHEN excluded > COALESCE(old, -1) THEN excluded
      ELSE old END`.
When the stored value is `NULL` the incoming value is taken; otherwise
the incoming value replaces it only when strictly larger (a `NULL`
incoming value never wins the comparison, so the stored value stays). -/
def mergeCounter (old new : Option Int) : Option Int :=
  match old, new with
  | none, n => n
  | some o, none => some o
  | some o, some n => some (if n > o then n else o)

/-- Spec-side definition (refinement target, from the spec's words):
the maximum of all non-missing values in a list of merged values,
`none` when every value is missing. -/
def maxOfPresent : List (Option Int) → Option Int
  | [] => none
  | none :: xs => maxOfPresent xs
  | some v :: xs =>
    match maxOfPresent xs with
    | none => some v
    | some w => some (max v w)

theorem mergeCounter_none_left (x : Option Int) : mergeCounter none x = x := rfl

theorem mergeCounter_none_right (x : Option Int) : mergeCounter x none = x := by
  cases x <;> rfl

theorem mergeCounter_some_some (o n : Int) :
    mergeCounter (some o) (some n) = some (max o n) := by
  by_cases h : n > o
  · simp [mergeCounter, h, max_eq_right (le_of_lt h)]
  · simp [mergeCounter, h, max_eq_left (by omega : n ≤ o)]

theorem mergeCounter_assoc (a b c : Option Int) :
    mergeCounter (mergeCounter a b) c = mergeCounter a (mergeCounter b c) := by
  rcases a with _ | a <;> rcases b with _ | b <;> rcases c with _ | c <;>
    simp [mergeCounter_none_left, mergeCounter_none_right, mergeCounter_some_some,
      max_assoc]

theorem foldl_mergeCounter_shift (xs : List (Option Int)) (a : Option Int) :
    xs.foldl mergeCounter a = mergeCounter a (xs.foldl mergeCounter none) := by
  induction xs generalizing a with
  | nil => simp [mergeCounter_none_right]
  | cons x xs ih =>
    simp only [List.foldl_cons]
    rw [ih (mergeCounter a x), ih (mergeCounter none x), mergeCounter_none_left,
      mergeCounter_assoc]

/-- C1: for every sequence of upsert operations on a post's engagement
counter, the persisted value after the sequence equals the maximum of
all non-missing merged values (`none` when none arrived); a missing
incoming value leaves the persisted value unchanged; and once a value is
known, any further merge keeps a known value that is at least as large
(counters only move up, never down, and are never reset to missing). -/
theorem post_counter_merge_is_running_max :
    (∀ xs : List (Option Int), xs.foldl mergeCounter none = maxOfPresent xs) ∧
    (∀ s : Option Int, mergeCounter s none = s) ∧
    (∀ (o : Int) (x : Option Int),
      ∃ r : Int, mergeCounter (some o) x = some r ∧ o ≤ r) := by
  refine ⟨?_, mergeCounter_none_right, ?_⟩
  · intro xs
    induction xs with
    | nil => rfl
    | cons x xs ih =>
      rw [List.foldl_cons, mergeCounter_none_left, foldl_mergeCounter_shift, ih]
      cases x with
      | none => simp [mergeCounter_none_left, maxOfPresent]
      | some v =>
        cases h : maxOfPresent xs with
        | none => simp [maxOfPresent, mergeCounter_none_right, h]
        | some w => simp [maxOfPresent, mergeCounter_some_some, h]
  · intro o x
    cases x with
    | none => exact ⟨o, rfl, le_refl o⟩
    | some n =>
      refine ⟨max o n, mergeCounter_some_some o n, le_max_left o n⟩

/-- The six engagement counters of a post, as carried by a
`channel_messages` / `message_metrics` row (JS `null` is `none`). -/
structure Counters where
  view_count : Option Int
  forward_count : Option Int
  reply_count : Option Int
  reactions_total : Option Int
  reactions_paid : Option Int
  reactions_free : Option Int
deriving DecidableEq

/-- The snapshot write decision taken per message inside
`upsertMessages`: a `message_metrics` row is attempted only when a run
is open (`currentRunId !== null`) and at least one of the six counters
differs from the last snapshot remembered for this post in the
process-local `lastMetrics` map (strict `!==` field comparisons, with
`null !== null` being false).  Returns whether a row was written and the
updated remembered snapshot for the post. -/
def metricSnapshotStep (runId : Option Int) (last : Option Counters) (c : Counters) :
    Bool × Option Counters :=
  match runId with
  | none => (false, last)
  | some _ => if last = some c then (false, last) else (true, some c)

/-- Number of `message_metrics` writes performed for one post over a
sequence of deliveries of its counter sets, threading the `lastMetrics`
entry through `metricSnapshotStep`. -/
def metricWriteCount (runId : Option Int) : Option Counters → List Counters → Nat
  | _, [] => 0
  | last, c :: cs =>
    (if (metricSnapshotStep runId last c).1 then 1 else 0) +
      metricWriteCount runId (metricSnapshotStep runId last c).2 cs

theorem metricWriteCount_replicate_same (rid : Int) (c : Counters) (n : Nat) :
    metricWriteCount (some rid) (some c) (List.replicate n c) = 0 := by
  induction n with
  | zero => rfl
  | succ n ih => simp [List.replicate_succ, metricWriteCount, metricSnapshotStep, ih]

/-- C2: within one process lifetime a metric snapshot row is written for
a post only when at least one of the six engagement counters differs
from the last snapshot recorded for that post; repeated deliveries of an
unchanged counter set produce at most one snapshot write. -/
theorem metric_snapshot_write_avoidance :
    (∀ (runId : Option Int) (last : Option Counters) (c : Counters),
      (metricSnapshotStep runId last c).1 = true → runId.isSome ∧ last ≠ some c) ∧
    (∀ (rid : Int) (last : Option Counters) (c : Counters) (n : Nat),
      metricWriteCount (some rid) last (List.replicate n c) ≤ 1) := by
  constructor
  · intro runId last c h
    cases runId with
    | none => simp [metricSnapshotStep] at h
    | some rid =>
      by_cases hl : last = some c
      · simp [metricSnapshotStep, hl] at h
      · exact ⟨rfl, hl⟩
  · intro rid last c n
    cases n with
    | zero => simp [metricWriteCount]
    | succ m =>
      by_cases hl : last = some c
      · rw [List.replicate_succ]
        simp only [metricWriteCount, metricSnapshotStep, hl, if_pos, if_neg]
        simp [hl, metricWriteCount_replicate_same]
      · rw [List.replicate_succ]
        simp only [metricWriteCount, metricSnapshotStep]
        simp [hl, metricWriteCount_replicate_same]

/-- Witness for C2 at concrete inputs. -/
theorem metric_snapshot_write_avoidance_witness :
    ((some (0 : Int) : Option Int).isSome ∧
      (none : Option Counters) ≠ some ⟨some 1, none, none, none, none, none⟩) ∧
    metricWriteCount (some 0) none
      (List.replicate 3 ⟨some 1, none, none, none, none, none⟩) ≤ 1 :=
  ⟨metric_snapshot_write_avoidance.1 (some 0) none
      ⟨some 1, none, none, none, none, none⟩ (by decide),
    metric_snapshot_write_avoidance.2 0 none ⟨some 1, none, none, none, none, none⟩ 3⟩

/-- Key of the `message_metrics` table as declared in `initDb`:
`PRIMARY KEY(run_id, chat_id, message_id)` — the capture time `ts` is a
plain column, not part of the key. -/
structure MetricKey where
  run_id : Int
  chat_id : Int
  message_id : Int
deriving DecidableEq

/-- One `message_metrics` row: key, capture time and the six counters. -/
structure MetricRow where
  key : MetricKey
  ts : Int
  counters : Counters
deriving DecidableEq

/-- The field-wise monotonic-max merge of the six counters, as performed
by the `ON CONFLICT ... DO UPDATE` clauses. -/
def mergeCounters (old new : Counters) : Counters where
  view_count := mergeCounter old.view_count new.view_count
  forward_count := mergeCounter old.forward_count new.forward_count
  reply_count := mergeCounter old.reply_count new.reply_count
  reactions_total := mergeCounter old.reactions_total new.reactions_total
  reactions_paid := mergeCounter old.reactions_paid new.reactions_paid
  reactions_free := mergeCounter old.reactions_free new.reactions_free

/-- The `upsertMessageMetric` prepared statement: insert the row, and
`ON CONFLICT(run_id, chat_id, message_id) DO UPDATE` merge the six
counters monotonically; the `DO UPDATE` column list does not include
`ts`, so the stored capture time stays the one of the first insert.  The
table is modelled as a list of rows with distinct keys. -/
def upsertMessageMetric (table : List MetricRow) (r : MetricRow) : List MetricRow :=
  if table.any (fun q => decide (q.key = r.key)) then
    table.map (fun q =>
      if q.key = r.key then { q with counters := mergeCounters q.counters r.counters } else q)
  else table ++ [r]

/-- First capture of run 1 for post (5, 7), at time 100. -/
def captureEarly : MetricRow := ⟨⟨1, 5, 7⟩, 100, ⟨some 10, none, none, none, none, none⟩⟩

/-- Second capture of run 1 for the same post, at time 200. -/
def captureLate : MetricRow := ⟨⟨1, 5, 7⟩, 200, ⟨some 20, none, none, none, none, none⟩⟩

/-- C3 counterexample: two captures of the same post at different times
within the same run do not yield two distinct rows — they collapse into
a single row (the capture time is not part of the key), and that row's
counters are modified in place by the second capture while keeping the
first capture's `ts`. -/
theorem metric_snapshot_key_counterexample :
    upsertMessageMetric (upsertMessageMetric [] captureEarly) captureLate
      = [⟨⟨1, 5, 7⟩, 100, ⟨some 20, none, none, none, none, none⟩⟩] ∧
    (upsertMessageMetric (upsertMessageMetric [] captureEarly) captureLate).length ≠ 2 := by
  constructor
  · rfl
  · decide

/-- C3 amended: metric snapshot rows are keyed by
(run id, chat id, message id) only.  Captures with distinct keys (for
example, the same post in two different runs) create distinct rows; a
second capture under the same key within one run updates the existing
row in place, merging the six counters monotonically and keeping the
original capture time. -/
theorem metric_snapshot_upsert_semantics :
    (∀ r1 r2 : MetricRow, r1.key ≠ r2.key →
      upsertMessageMetric (upsertMessageMetric [] r1) r2 = [r1, r2]) ∧
    (∀ r1 r2 : MetricRow, r1.key = r2.key →
      upsertMessageMetric (upsertMessageMetric [] r1) r2
        = [⟨r1.key, r1.ts, mergeCounters r1.counters r2.counters⟩]) := by
  constructor
  · intro r1 r2 h
    simp [upsertMessageMetric, h]
  · intro r1 r2 h
    simp [upsertMessageMetric, h]

/-- Witness for C3's amended theorem at concrete rows. -/
theorem metric_snapshot_upsert_semantics_witness :
    upsertMessageMetric (upsertMessageMetric [] captureEarly)
        ⟨⟨2, 5, 7⟩, 300, ⟨some 15, none, none, none, none, none⟩⟩
      = [captureEarly, ⟨⟨2, 5, 7⟩, 300, ⟨some 15, none, none, none, none, none⟩⟩] ∧
    upsertMessageMetric (upsertMessageMetric [] captureEarly) captureLate
      = [⟨captureEarly.key, captureEarly.ts,
          mergeCounters captureEarly.counters captureLate.counters⟩] :=
  ⟨metric_snapshot_upsert_semantics.1 captureEarly
      ⟨⟨2, 5, 7⟩, 300, ⟨some 15, none, none, none, none, none⟩⟩ (by decide),
    metric_snapshot_upsert_semantics.2 captureEarly captureLate (by decide)⟩

/-- The quota snapshot of one account, as kept in the registry file
(`sanitizeAccount` fields relevant to selection).  `free_at` is the
absolute reset time in milliseconds; a field is `none` when the JS value
is `null` or fails `Number.isFinite` / `Date.parse`. -/
structure Account where
  remaining_free : Option Int
  free_at : Option Int
  star_cost_per_query : Option Int
  star_balance : Option Int
  skip_stars : Bool
deriving DecidableEq

/-- Model of `isFreeReady`: an account qualifies for a free sweep when its
`remaining_free` is a number greater than zero, or its `free_at` parses
to a time that has already passed. -/
def isFreeReady (now : Int) (a : Account) : Bool :=
  (match a.remaining_free with
   | some r => decide (r > 0)
   | none => false) ||
  (match a.free_at with
   | some t => decide (t ≤ now)
   | none => false)

/-- Whether the account stored at position `idx` is free-ready
(`false` for an out-of-range index). -/
def freeReadyAt (accounts : List Account) (now : Int) (idx : Nat) : Bool :=
  match accounts[idx]? with
  | some a => isFreeReady now a
  | none => false

/-- The scanning loop of `findNextFreeAccountIndex`:
`for (step = 0; step < total; step++) { idx = (fromIndex + step) % total;
if (isFreeReady(accounts[idx])) return idx; } return null;`
modelled with the remaining iteration count as fuel. -/
def scanFreeFrom (accounts : List Account) (now : Int) (fromIndex : Nat) :
    Nat → Nat → Option Nat
  | _, 0 => none
  | step, fuel + 1 =>
    if freeReadyAt accounts now ((fromIndex + step) % accounts.length)
    then some ((fromIndex + step) % accounts.length)
    else scanFreeFrom accounts now fromIndex (step + 1) fuel

/-- Model of `findNextFreeAccountIndex(accounts, fromIndex)`: round-robin scan of
all accounts starting at `fromIndex`, returning the first free-ready
index, or `none` when no account qualifies (also when the list is
empty). -/
def findNextFreeAccountIndex (accounts : List Account) (fromIndex : Nat) (now : Int) :
    Option Nat :=
  scanFreeFrom accounts now fromIndex 0 accounts.length

/-- The eligibility test inside `findStarAccountIndex`: not flagged
`skip_stars`, a known per-call star cost at least `minCost`, and a known
positive star balance. -/
def starEligible (minCost : Int) (a : Account) : Bool :=
  !a.skip_stars &&
  (match a.star_cost_per_query, a.star_balance with
   | some cost, some bal => decide (cost ≥ minCost) && decide (bal > 0)
   | _, _ => false)

/-- Model of `findStarAccountIndex(accounts, minCost)`: linear scan from index 0
returning the first eligible account's index. -/
def findStarAccountIndex (accounts : List Account) (minCost : Int) : Option Nat :=
  accounts.findIdx? (starEligible minCost)

theorem scanFreeFrom_eq_none (accounts : List Account) (now : Int) (fromIndex : Nat) :
    ∀ (fuel step : Nat),
      scanFreeFrom accounts now fromIndex step fuel = none ↔
        ∀ t, t < fuel →
          freeReadyAt accounts now ((fromIndex + (step + t)) % accounts.length) = false := by
  intro fuel
  induction fuel with
  | zero => intro step; simp [scanFreeFrom]
  | succ n ih =>
    intro step
    cases hr : freeReadyAt accounts now ((fromIndex + step) % accounts.length) with
    | true =>
      simp only [scanFreeFrom, hr, if_true]
      constructor
      · intro h; exact absurd h (by simp)
      · intro H
        have h0 := H 0 (Nat.succ_pos n)
        rw [Nat.add_zero] at h0
        rw [hr] at h0
        cases h0
    | false =>
      simp only [scanFreeFrom, hr, Bool.false_eq_true, if_false]
      rw [ih (step + 1)]
      constructor
      · intro H t ht
        cases t with
        | zero => simpa using hr
        | succ u =>
          have hu := H u (by omega)
          have e : fromIndex + (step + 1 + u) = fromIndex + (step + (u + 1)) := by omega
          rw [e] at hu
          exact hu
      · intro H t ht
        have hu := H (t + 1) (by omega)
        have e : fromIndex + (step + (t + 1)) = fromIndex + (step + 1 + t) := by omega
        rw [e] at hu
        exact hu

theorem scanFreeFrom_eq_some (accounts : List Account) (now : Int) (fromIndex : Nat) :
    ∀ (fuel step idx : Nat),
      scanFreeFrom accounts now fromIndex step fuel = some idx →
        ∃ t, t < fuel ∧ idx = (fromIndex + (step + t)) % accounts.length ∧
          freeReadyAt accounts now idx = true ∧
          ∀ u, u < t →
            freeReadyAt accounts now ((fromIndex + (step + u)) % accounts.length) = false := by
  intro fuel
  induction fuel with
  | zero => intro step idx h; simp [scanFreeFrom] at h
  | succ n ih =>
    intro step idx h
    cases hr : freeReadyAt accounts now ((fromIndex + step) % accounts.length) with
    | true =>
      rw [scanFreeFrom, hr, if_pos rfl] at h
      have hidx : idx = (fromIndex + step) % accounts.length :=
        (Option.some_injective _ h).symm
      refine ⟨0, Nat.succ_pos n, ?_, ?_, ?_⟩
      · rw [Nat.add_zero]; exact hidx
      · rw [hidx]; exact hr
      · intro u hu; omega
    | false =>
      rw [scanFreeFrom, hr] at h
      simp only [Bool.false_eq_true, if_false] at h
      obtain ⟨t, ht, hidx, hready, hmin⟩ := ih (step + 1) idx h
      refine ⟨t + 1, by omega, ?_, hready, ?_⟩
      · rw [hidx]; congr 1; omega
      · intro u hu
        cases u with
        | zero => simpa using hr
        | succ v =>
          have hv := hmin v (by omega)
          have e : fromIndex + (step + 1 + v) = fromIndex + (step + (v + 1)) := by omega
          rw [e] at hv
          exact hv

theorem exists_step_mod (len f i : Nat) (hlen : 0 < len) (hi : i < len) :
    ∃ t, t < len ∧ (f + t) % len = i := by
  have hf : f % len < len := Nat.mod_lt _ hlen
  by_cases hc : f % len ≤ i
  · refine ⟨i - f % len, by omega, ?_⟩
    rw [← Nat.mod_add_mod]
    have e : f % len + (i - f % len) = i := by omega
    rw [e, Nat.mod_eq_of_lt hi]
  · refine ⟨len + i - f % len, by omega, ?_⟩
    rw [← Nat.mod_add_mod]
    have e : f % len + (len + i - f % len) = len + i := by omega
    rw [e, Nat.add_mod_left, Nat.mod_eq_of_lt hi]

/-- Account A of the spec's example: free quota exhausted, reset 60 s in
the future (times in ms, "now" being 1000000). -/
def exAccountA : Account := ⟨some 0, some 1060000, none, none, false⟩

/-- Account B of the spec's example: 5 free calls remaining. -/
def exAccountB : Account := ⟨some 5, none, none, none, false⟩

/-- Account B with its free quota also exhausted. -/
def exAccountBExhausted : Account := ⟨some 0, none, none, none, false⟩

/-- Account C of the spec's example: paid account, cost 10, balance 100. -/
def exAccountC : Account := ⟨some 0, none, some 10, some 100, false⟩

/-- C4: `pick_free` scans in round-robin order from `fromIndex` and
returns the first free-ready index (`none` when no account qualifies);
`pick_paid` returns the first non-`skip_stars` account with known cost
`≥ minCost` and positive balance.  With the spec's accounts
[A(no free, reset in 60 s), B(5 free), C(cost 10, balance 100)] and
`fromIndex` at A, `pick_free` returns B's index 1; with B exhausted,
`pick_free` returns `none` and `pick_paid(10)` returns C's index 2. -/
theorem account_selection_policy :
    (∀ (accounts : List Account) (fromIndex : Nat) (now : Int),
      findNextFreeAccountIndex accounts fromIndex now = none ↔
        ∀ a ∈ accounts, isFreeReady now a = false) ∧
    (∀ (accounts : List Account) (fromIndex : Nat) (now : Int) (idx : Nat),
      findNextFreeAccountIndex accounts fromIndex now = some idx →
        ∃ step, step < accounts.length ∧
          idx = (fromIndex + step) % accounts.length ∧
          freeReadyAt accounts now idx = true ∧
          ∀ t, t < step →
            freeReadyAt accounts now ((fromIndex + t) % accounts.length) = false) ∧
    (∀ (accounts : List Account) (minCost : Int) (i : Nat),
      findStarAccountIndex accounts minCost = some i →
        ∃ a, accounts[i]? = some a ∧ starEligible minCost a = true ∧
          ∀ j, j < i → ∀ b, accounts[j]? = some b → starEligible minCost b = false) ∧
    (findNextFreeAccountIndex [exAccountA, exAccountB, exAccountC] 0 1000000 = some 1 ∧
      findNextFreeAccountIndex [exAccountA, exAccountBExhausted, exAccountC] 0 1000000 = none ∧
      findStarAccountIndex [exAccountA, exAccountBExhausted, exAccountC] 10 = some 2) := by
  refine ⟨?_, ?_, ?_, by decide, by decide, by decide⟩
  · intro accounts fromIndex now
    rw [findNextFreeAccountIndex, scanFreeFrom_eq_none]
    constructor
    · intro H a ha
      obtain ⟨i, hi, hget⟩ := List.mem_iff_getElem.mp ha
      have hlen : 0 < accounts.length := by omega
      obtain ⟨t, ht, hmod⟩ := exists_step_mod accounts.length fromIndex i hlen hi
      have := H t ht
      rw [Nat.zero_add, hmod] at this
      rw [freeReadyAt] at this
      rw [List.getElem?_eq_getElem hi, hget] at this
      exact this
    · intro H t _
      rw [freeReadyAt]
      cases hg : accounts[(fromIndex + (0 + t)) % accounts.length]? with
      | none => rfl
      | some a => exact H a (List.getElem?_mem hg)
  · intro accounts fromIndex now idx h
    rw [findNextFreeAccountIndex] at h
    obtain ⟨t, ht, hidx, hready, hmin⟩ :=
      scanFreeFrom_eq_some accounts now fromIndex accounts.length 0 idx h
    refine ⟨t, ht, ?_, hready, ?_⟩
    · rw [hidx, Nat.zero_add]
    · intro u hu
      have := hmin u hu
      rw [Nat.zero_add] at this
      exact this
  · intro accounts minCost i h
    rw [findStarAccountIndex] at h
    induction accounts generalizing i with
    | nil => simp [List.findIdx?] at h
    | cons a as ih =>
      rw [List.findIdx?_cons] at h
      cases he : starEligible minCost a with
      | true =>
        rw [he, if_pos rfl] at h
        cases h
        exact ⟨a, by simp, he, fun j hj b _ => absurd hj (Nat.not_lt_zero j)⟩
      | false =>
        rw [he] at h
        simp only [Bool.false_eq_true, if_false] at h
        rw [List.findIdx?_succ, Option.map_eq_some'] at h
        obtain ⟨i0, hfind, hi0⟩ := h
        obtain ⟨b, hget, helig, hfirst⟩ := ih i0 hfind
        subst hi0
        refine ⟨b, by simpa using hget, helig, ?_⟩
        intro j hj c hget2
        cases j with
        | zero =>
          simp only [List.getElem?_cons_zero] at hget2
          cases hget2
          exact he
        | succ k =>
          simp only [List.getElem?_cons_succ] at hget2
          exact hfirst k (by omega) c hget2

/-- Witness for C4 at the spec's concrete example. -/
theorem account_selection_policy_witness :
    (∃ step, step < ([exAccountA, exAccountB, exAccountC] : List Account).length ∧
      1 = (0 + step) % ([exAccountA, exAccountB, exAccountC] : List Account).length ∧
      freeReadyAt [exAccountA, exAccountB, exAccountC] 1000000 1 = true ∧
      ∀ t, t < step →
        freeReadyAt [exAccountA, exAccountB, exAccountC] 1000000
          ((0 + t) % ([exAccountA, exAccountB, exAccountC] : List Account).length) = false) ∧
    (∀ a ∈ ([exAccountA, exAccountBExhausted, exAccountC] : List Account),
      isFreeReady 1000000 a = false) :=
  ⟨account_selection_policy.2.1 [exAccountA, exAccountB, exAccountC] 0 1000000 1 (by decide),
    (account_selection_policy.1 [exAccountA, exAccountBExhausted, exAccountC] 0 1000000).mp
      (by decide)⟩

/-- One page returned by `searchPublicPosts`: the number of messages in
the batch, the continuation cursor (`none` models an absent or
non-string `next_offset`), and the platform's quota-exhaustion flag. -/
structure SearchPage where
  msgCount : Nat
  next_offset : Option String
  are_limits_exceeded : Bool

/-- Outcome of one `searchPublicPosts` invocation: a page, or the
`BALANCE_TOO_LOW` error (which `runSearchLoop` catches itself; any
other error propagates and is outside this model). -/
inductive SearchCallResult
  | page (p : SearchPage)
  | balanceTooLow

/-- The values `runSearchLoop` returns to `main`, plus the number of
`searchPublicPosts` invocations made. -/
structure SweepResult where
  total : Nat
  limitsExceeded : Bool
  balanceLow : Bool
  calls : Nat
deriving DecidableEq

/-- The cursor test of `runSearchLoop`: the loop continues only when
`next_offset` is a non-empty string
(`if (!res?.next_offset || typeof res.next_offset !== "string" ||
res.next_offset.length === 0) break;`). -/
def hasNextOffset (p : SearchPage) : Bool :=
  match p.next_offset with
  | some s => !(decide (s = ""))
  | none => false

/-- The body of `runSearchLoop`, driven by the script of responses the
session will deliver (one entry per invocation).  The order of checks
follows the source: count the page's messages into the total, then stop
on `are_limits_exceeded`, then stop on an empty/absent cursor, else
continue with the next page.  A `BALANCE_TOO_LOW` outcome stops the
sweep with `balanceLow = true` and is not an error.  The external stop
signal is not exercised (the modelled runs have no stop request); a
script that runs out models a session that would deliver nothing more. -/
def runSearchLoopGo : List SearchCallResult → Nat → Nat → SweepResult
  | [], total, calls => ⟨total, false, false, calls⟩
  | .balanceTooLow :: _, total, calls => ⟨total, false, true, calls + 1⟩
  | .page p :: rest, total, calls =>
    if p.are_limits_exceeded then ⟨total + p.msgCount, true, false, calls + 1⟩
    else if hasNextOffset p then runSearchLoopGo rest (total + p.msgCount) (calls + 1)
    else ⟨total + p.msgCount, false, false, calls + 1⟩

/-- Model of `runSearchLoop`: drive the paginated search from an empty cursor. -/
def runSearchLoop (script : List SearchCallResult) : SweepResult :=
  runSearchLoopGo script 0 0

/-- C5: a sweep whose session returns three pages with continuation
cursors "x1", "x2", "" (no quota exhaustion, no balance error, no stop
signal) makes exactly three search calls — whatever the session would
have returned afterwards — and emits a total equal to the sum of the
three pages' message counts. -/
theorem pagination_stops_on_empty_cursor (n1 n2 n3 : Nat) (rest : List SearchCallResult) :
    runSearchLoop (.page ⟨n1, some "x1", false⟩ :: .page ⟨n2, some "x2", false⟩ ::
        .page ⟨n3, some "", false⟩ :: rest)
      = ⟨n1 + n2 + n3, false, false, 3⟩ := by
  have h1 : hasNextOffset ⟨n1, some "x1", false⟩ = true := rfl
  have h2 : hasNextOffset ⟨n2, some "x2", false⟩ = true := rfl
  have h3 : hasNextOffset ⟨n3, some "", false⟩ = false := rfl
  simp [runSearchLoop, runSearchLoopGo, h1, h2, h3]

/-- The scheduler action chosen after a sweep ends. -/
inductive PostSweepAction
  | exit
  | switchAccount (idx : Nat)
  | sleep (ms : Int)
deriving DecidableEq

/-- The `skip_stars` marking in `main` right after a sweep:
`if (balanceLow) currentAccount.skip_stars = true`. -/
def markBalanceLow (a : Account) (balanceLow : Bool) : Account :=
  if balanceLow then { a with skip_stars := true } else a

/-- Model of `nextFreeTimestamp(accounts)`: the smallest `free_at` strictly in
the future across all accounts (the JS truthiness test also skips a
zero timestamp), or `none`. -/
def nextFreeTimestamp (now : Int) (accounts : List Account) : Option Int :=
  accounts.foldl (fun ts acc =>
    match acc.free_at with
    | none => ts
    | some t =>
      if (!(decide (t = 0))) && decide (t > now) &&
          (match ts with | none => true | some u => decide (t < u))
      then some t else ts) none

/-- The tail of one `main` loop iteration, after the sweep's bookkeeping
(registry write included): stop when a shutdown was requested; if the
sweep ran on stars and another account's free quota is ready, switch to
it and re-enter the decision state with no sleep; if a free sweep
exhausted the quota and a later account is free-ready, switch likewise;
otherwise sleep the inter-sweep period (shortened toward the next free
reset, but to no less than one second, when the sweep ran on stars). -/
def postSweepAction (accounts : List Account) (accountIndex : Nat)
    (useStars limitsZero stopRequested : Bool) (now periodMs : Int) : PostSweepAction :=
  if stopRequested then .exit else
  match (if useStars && decide (1 < accounts.length) then
           match findNextFreeAccountIndex accounts 0 now with
           | some idx => if idx ≠ accountIndex then some idx else none
           | none => none
         else none) with
  | some idx => .switchAccount idx
  | none =>
    match (if (!useStars) && limitsZero && decide (1 < accounts.length) then
             match findNextFreeAccountIndex accounts (accountIndex + 1) now with
             | some idx => if idx ≠ accountIndex then some idx else none
             | none => none
           else none) with
    | some idx => .switchAccount idx
    | none =>
      .sleep (if useStars then
                match nextFreeTimestamp now accounts with
                | some ts => min periodMs (max 1000 (ts - now))
                | none => periodMs
              else periodMs)

/-- The single account of the C6 counterexample: no free quota, no
reset time known, paid cost 10, balance 5, stars not yet disabled. -/
def loneStarAccount : Account := ⟨some 0, none, some 10, some 5, false⟩

/-- C6 counterexample: after an insufficient-balance outcome on a paid
sweep with a single configured account, the account is marked
`skip_stars`, but the scheduler does not re-enter its decision state
without sleeping — it sleeps the full inter-sweep interval (1000 ms
here) before the next iteration. -/
theorem balance_low_sleep_counterexample :
    (markBalanceLow loneStarAccount true).skip_stars = true ∧
    postSweepAction [markBalanceLow loneStarAccount true] 0 true false false 1000000 1000
      = .sleep 1000 := by
  constructor
  · rfl
  · rfl

/-- C6 amended: an insufficient-balance error stops the paid sweep
without being fatal (it is reported as `balanceLow`, with no posts from
the failing call), and the account is marked `skip_stars`; the
scheduler then re-enters its decision state without sleeping only when
another account's free quota is currently ready; with a single account
it sleeps an inter-sweep interval instead. -/
theorem balance_low_handling :
    (∀ rest, runSearchLoop (.balanceTooLow :: rest) = ⟨0, false, true, 1⟩) ∧
    (∀ a, (markBalanceLow a true).skip_stars = true) ∧
    (∀ (accounts : List Account) (accountIndex : Nat) (limitsZero : Bool)
        (now periodMs : Int) (idx : Nat),
      1 < accounts.length →
      findNextFreeAccountIndex accounts 0 now = some idx →
      idx ≠ accountIndex →
      postSweepAction accounts accountIndex true limitsZero false now periodMs
        = .switchAccount idx) ∧
    (∀ (a : Account) (accountIndex : Nat) (limitsZero : Bool) (now periodMs : Int),
      ∃ ms, postSweepAction [a] accountIndex true limitsZero false now periodMs
        = .sleep ms) := by
  refine ⟨fun rest => rfl, fun a => rfl, ?_, ?_⟩
  · intro accounts accountIndex limitsZero now periodMs idx hlen hfind hne
    simp [postSweepAction, hlen, hfind, hne]
  · intro a accountIndex limitsZero now periodMs
    refine ⟨(match nextFreeTimestamp now [a] with
             | some ts => min periodMs (max 1000 (ts - now))
             | none => periodMs), ?_⟩
    simp [postSweepAction]

/-- Witness for C6's amended theorem at concrete inputs. -/
theorem balance_low_handling_witness :
    postSweepAction [loneStarAccount, exAccountB] 0 true false false 1000000 1000
      = .switchAccount 1 ∧
    (∃ ms, postSweepAction [loneStarAccount] 0 true false false 1000000 1000 = .sleep ms) :=
  ⟨balance_low_handling.2.2.1 [loneStarAccount, exAccountB] 0 false 1000000 1000 1
      (by decide) (by decide) (by decide),
    balance_low_handling.2.2.2 loneStarAccount 0 false 1000000 1000⟩

/-- Model of `allowMessages(messages)`: add each message's (chat id, message id)
pair to the module-level `allowedMessages` map of sets (entries lacking
numeric ids are skipped and are not modelled).  The map of sets is
modelled as a duplicate-free list of pairs.  No operation in the source
ever removes entries or clears the map. -/
def allowMessages (allowed : List (Int × Int)) (msgs : List (Int × Int)) :
    List (Int × Int) :=
  msgs.foldl (fun acc m => if m ∈ acc then acc else acc ++ [m]) allowed

/-- Model of `isMessageAllowed(chatId, messageId)`: membership test against the
in-flight set. -/
def isMessageAllowed (allowed : List (Int × Int)) (chatId messageId : Int) : Bool :=
  decide ((chatId, messageId) ∈ allowed)

theorem allowMessages_mem_mono (msgs : List (Int × Int)) :
    ∀ (allowed : List (Int × Int)) (p : Int × Int),
      p ∈ allowed → p ∈ allowMessages allowed msgs := by
  induction msgs with
  | nil => intro allowed p hp; exact hp
  | cons m ms ih =>
    intro allowed p hp
    rw [allowMessages, List.foldl_cons]
    by_cases hm : m ∈ allowed
    · rw [if_pos hm]; exact ih allowed p hp
    · rw [if_neg hm]
      exact ih (allowed ++ [m]) p (List.mem_append_left _ hp)

/-- C7 counterexample: the first sweep surfaces message 100 of chat 1
and the second sweep surfaces only message 200 of chat 1; the source
contains no operation that clears `allowedMessages` between sweeps
(`allowMessages` only adds and `isMessageAllowed` only reads), so
during the second sweep message 100 is still accepted even though the
second sweep did not surface it — the set is not rebuilt per sweep. -/
theorem inflight_not_rebuilt_counterexample :
    isMessageAllowed (allowMessages (allowMessages [] [(1, 100)]) [(1, 200)]) 1 100
      = true ∧
    ((1 : Int), (100 : Int)) ∉ [((1 : Int), (200 : Int))] := by
  constructor
  · rfl
  · decide

/-- C7 amended: the in-flight set lives only in process memory and only
grows: each sweep's `allowMessages` adds the (chat id, message id)
pairs it surfaced, every pair already present stays present, and no
operation removes or persists entries — so ids surfaced by any earlier
sweep of the same process remain accepted. -/
theorem inflight_set_accumulates :
    (∀ (allowed batch : List (Int × Int)) (c m : Int),
      isMessageAllowed allowed c m = true →
      isMessageAllowed (allowMessages allowed batch) c m = true) ∧
    (∀ (allowed batch : List (Int × Int)) (p : Int × Int),
      p ∈ batch → p ∈ allowMessages allowed batch) := by
  constructor
  · intro allowed batch c m h
    rw [isMessageAllowed, decide_eq_true_eq] at h ⊢
    exact allowMessages_mem_mono batch allowed _ h
  · intro allowed batch p hp
    induction batch generalizing allowed with
    | nil => cases hp
    | cons m ms ih =>
      rw [allowMessages, List.foldl_cons]
      rcases List.mem_cons.mp hp with hpm | hpms
      · subst hpm
        by_cases hm : p ∈ allowed
        · rw [if_pos hm]; exact allowMessages_mem_mono ms allowed p hm
        · rw [if_neg hm]
          exact allowMessages_mem_mono ms (allowed ++ [p]) p
            (List.mem_append_right _ (List.mem_singleton.mpr rfl))
      · by_cases hm : m ∈ allowed
        · rw [if_pos hm]; exact ih allowed hpms
        · rw [if_neg hm]; exact ih (allowed ++ [m]) hpms

/-- Witness for C7's amended theorem at concrete inputs. -/
theorem inflight_set_accumulates_witness :
    isMessageAllowed (allowMessages [(1, 100)] [(1, 200)]) 1 100 = true ∧
    ((1 : Int), (200 : Int)) ∈ allowMessages [(1, 100)] [(1, 200)] :=
  ⟨inflight_set_accumulates.1 [(1, 100)] [(1, 200)] 1 100 (by decide),
    inflight_set_accumulates.2 [(1, 100)] [(1, 200)] (1, 200) (by decide)⟩

/-- The parts of a delivered message that album deduplication looks at:
chat id, message id and the optional numeric `media_album_id`. -/
structure AlbumMsg where
  chat_id : Int
  id : Int
  media_album_id : Option Int
deriving DecidableEq

/-- Lookup in the `albumKeeper` map, keyed by the (chat id, album id)
pair (the source uses the string key `"${chat_id}:${album_id}"`). -/
def keeperLookup : List ((Int × Int) × Int) → (Int × Int) → Option Int
  | [], _ => none
  | e :: rest, key => if e.1 = key then some e.2 else keeperLookup rest key

/-- Model of `isAlbumDuplicate(message)`: a message without a numeric album id is
never a duplicate; the first message seen for a (chat id, album id) key
records its id in `albumKeeper` and is kept; a later message under the
same key is a duplicate exactly when its id differs from the recorded
one.  Returns (dropped, updated keeper). -/
def albumStep (keeper : List ((Int × Int) × Int)) (m : AlbumMsg) :
    Bool × List ((Int × Int) × Int) :=
  match m.media_album_id with
  | none => (false, keeper)
  | some aid =>
    match keeperLookup keeper (m.chat_id, aid) with
    | none => (false, keeper ++ [((m.chat_id, aid), m.id)])
    | some existing => (decide (existing ≠ m.id), keeper)

/-- The album filter of `upsertMessages` over a delivery sequence:
messages for which `isAlbumDuplicate` answers true are dropped
(`continue`), the rest go on to be persisted. -/
def albumFilterGo : List ((Int × Int) × Int) → List AlbumMsg → List AlbumMsg
  | _, [] => []
  | keeper, m :: ms =>
    if (albumStep keeper m).1 then albumFilterGo (albumStep keeper m).2 ms
    else m :: albumFilterGo (albumStep keeper m).2 ms

/-- The messages a delivery sequence persists, starting from the empty
`albumKeeper` of a fresh process. -/
def keptAlbumMessages (ds : List AlbumMsg) : List AlbumMsg := albumFilterGo [] ds

theorem keeperLookup_append_of_some (l l2 : List ((Int × Int) × Int))
    (k : Int × Int) (i : Int) (h : keeperLookup l k = some i) :
    keeperLookup (l ++ l2) k = some i := by
  induction l with
  | nil => simp [keeperLookup] at h
  | cons e rest ih =>
    rw [keeperLookup] at h
    rw [List.cons_append, keeperLookup]
    by_cases he : e.1 = k
    · rw [if_pos he] at h ⊢; exact h
    · rw [if_neg he] at h ⊢; exact ih h

theorem keeperLookup_append_single_self (l : List ((Int × Int) × Int))
    (k : Int × Int) (v : Int) (h : keeperLookup l k = none) :
    keeperLookup (l ++ [(k, v)]) k = some v := by
  induction l with
  | nil => simp [keeperLookup]
  | cons e rest ih =>
    rw [keeperLookup] at h
    rw [List.cons_append, keeperLookup]
    by_cases he : e.1 = k
    · rw [if_pos he] at h; cases h
    · rw [if_neg he] at h ⊢; exact ih h

theorem keeperLookup_append_single_other (l : List ((Int × Int) × Int))
    (k k2 : Int × Int) (v : Int) (h : keeperLookup l k = none) (hne : k2 ≠ k) :
    keeperLookup (l ++ [(k2, v)]) k = none := by
  induction l with
  | nil => simp [keeperLookup, hne]
  | cons e rest ih =>
    rw [keeperLookup] at h
    rw [List.cons_append, keeperLookup]
    by_cases he : e.1 = k
    · rw [if_pos he] at h; cases h
    · rw [if_neg he] at h ⊢; exact ih h

theorem albumStep_none_album (keeper : List ((Int × Int) × Int)) (m : AlbumMsg)
    (hma : m.media_album_id = none) : albumStep keeper m = (false, keeper) := by
  simp only [albumStep, hma]

theorem albumStep_fresh_key (keeper : List ((Int × Int) × Int)) (m : AlbumMsg)
    (aid : Int) (hma : m.media_album_id = some aid)
    (hl : keeperLookup keeper (m.chat_id, aid) = none) :
    albumStep keeper m = (false, keeper ++ [((m.chat_id, aid), m.id)]) := by
  simp only [albumStep, hma, hl]

theorem albumStep_known_key (keeper : List ((Int × Int) × Int)) (m : AlbumMsg)
    (aid existing : Int) (hma : m.media_album_id = some aid)
    (hl : keeperLookup keeper (m.chat_id, aid) = some existing) :
    albumStep keeper m = (decide (existing ≠ m.id), keeper) := by
  simp only [albumStep, hma, hl]

theorem albumStep_preserves_entry (keeper : List ((Int × Int) × Int)) (m : AlbumMsg)
    (k : Int × Int) (i : Int) (h : keeperLookup keeper k = some i) :
    keeperLookup (albumStep keeper m).2 k = some i := by
  cases hma : m.media_album_id with
  | none => rw [albumStep_none_album keeper m hma]; exact h
  | some aid =>
    cases hl : keeperLookup keeper (m.chat_id, aid) with
    | none =>
      rw [albumStep_fresh_key keeper m aid hma hl]
      exact keeperLookup_append_of_some keeper _ k i h
    | some existing =>
      rw [albumStep_known_key keeper m aid existing hma hl]
      exact h

theorem albumFilter_kept_id_of_entry (ds : List AlbumMsg) :
    ∀ (keeper : List ((Int × Int) × Int)) (c a i : Int),
      keeperLookup keeper (c, a) = some i →
      ∀ m ∈ albumFilterGo keeper ds, m.chat_id = c → m.media_album_id = some a →
        m.id = i := by
  induction ds with
  | nil => intro keeper c a i _ m hm; cases hm
  | cons m0 ms ih =>
    intro keeper c a i hk m hm hc ha
    rw [albumFilterGo] at hm
    by_cases hd : (albumStep keeper m0).1 = true
    · rw [if_pos hd] at hm
      exact ih _ c a i (albumStep_preserves_entry keeper m0 _ i hk) m hm hc ha
    · rw [if_neg hd] at hm
      rcases List.mem_cons.mp hm with hm0 | hms
      · rw [hm0] at hc ha ⊢
        cases hl : keeperLookup keeper (m0.chat_id, a) with
        | none =>
          rw [hc] at hl
          rw [hl] at hk
          cases hk
        | some j =>
          have hj : j = i := by
            rw [hc] at hl
            rw [hl] at hk
            exact Option.some_injective _ hk
          rw [albumStep_known_key keeper m0 a j ha hl] at hd
          simp only [decide_eq_true_eq, not_not] at hd
          rw [← hj, hd]
      · exact ih _ c a i (albumStep_preserves_entry keeper m0 _ i hk) m hms hc ha

theorem albumFilter_kept_unique (ds : List AlbumMsg) :
    ∀ (keeper : List ((Int × Int) × Int)) (c a : Int),
      keeperLookup keeper (c, a) = none →
      ∀ m1 ∈ albumFilterGo keeper ds, ∀ m2 ∈ albumFilterGo keeper ds,
        m1.chat_id = c → m1.media_album_id = some a →
        m2.chat_id = c → m2.media_album_id = some a → m1.id = m2.id := by
  induction ds with
  | nil => intro keeper c a _ m1 hm1; cases hm1
  | cons m0 ms ih =>
    intro keeper c a hk m1 hm1 m2 hm2 hc1 ha1 hc2 ha2
    rw [albumFilterGo] at hm1 hm2
    by_cases hd : (albumStep keeper m0).1 = true
    · rw [if_pos hd] at hm1 hm2
      have hk2 : keeperLookup (albumStep keeper m0).2 (c, a) = none := by
        cases hma : m0.media_album_id with
        | none => rw [albumStep_none_album keeper m0 hma]; exact hk
        | some aid =>
          cases hl : keeperLookup keeper (m0.chat_id, aid) with
          | none =>
            rw [albumStep_fresh_key keeper m0 aid hma hl] at hd
            simp at hd
          | some j =>
            rw [albumStep_known_key keeper m0 aid j hma hl]
            exact hk
      exact ih _ c a hk2 m1 hm1 m2 hm2 hc1 ha1 hc2 ha2
    · rw [if_neg hd] at hm1 hm2
      cases hma : m0.media_album_id with
      | none =>
        have hstep := albumStep_none_album keeper m0 hma
        rw [hstep] at hm1 hm2
        rcases List.mem_cons.mp hm1 with h1 | h1
        · rw [h1, hma] at ha1; cases ha1
        · rcases List.mem_cons.mp hm2 with h2 | h2
          · rw [h2, hma] at ha2; cases ha2
          · exact ih keeper c a hk m1 h1 m2 h2 hc1 ha1 hc2 ha2
      | some aid =>
        cases hl : keeperLookup keeper (m0.chat_id, aid) with
        | some j =>
          have hstep := albumStep_known_key keeper m0 aid j hma hl
          rw [hstep] at hm1 hm2
          have hkeyne : (m0.chat_id, aid) ≠ (c, a) := by
            intro hkey
            rw [hkey] at hl
            rw [hl] at hk
            cases hk
          rcases List.mem_cons.mp hm1 with h1 | h1
          · refine absurd (Prod.ext ?_ ?_) hkeyne
            · rw [← h1]; exact hc1
            · rw [← h1] at hma
              rw [hma] at ha1
              exact Option.some_injective _ ha1
          · rcases List.mem_cons.mp hm2 with h2 | h2
            · refine absurd (Prod.ext ?_ ?_) hkeyne
              · rw [← h2]; exact hc2
              · rw [← h2] at hma
                rw [hma] at ha2
                exact Option.some_injective _ ha2
            · exact ih keeper c a hk m1 h1 m2 h2 hc1 ha1 hc2 ha2
        | none =>
          have hstep := albumStep_fresh_key keeper m0 aid hma hl
          rw [hstep] at hm1 hm2
          by_cases hkey : (m0.chat_id, aid) = (c, a)
          · have hentry : keeperLookup (keeper ++ [((m0.chat_id, aid), m0.id)]) (c, a)
                = some m0.id := by
              rw [hkey]
              rw [hkey] at hl
              exact keeperLookup_append_single_self keeper _ _ hl
            have hrest := albumFilter_kept_id_of_entry ms _ c a m0.id hentry
            rcases List.mem_cons.mp hm1 with h1 | h1
            · rcases List.mem_cons.mp hm2 with h2 | h2
              · rw [h1, h2]
              · rw [h1]
                exact (hrest m2 h2 hc2 ha2).symm
            · rcases List.mem_cons.mp hm2 with h2 | h2
              · rw [h2]
                exact hrest m1 h1 hc1 ha1
              · rw [hrest m1 h1 hc1 ha1, hrest m2 h2 hc2 ha2]
          · have hk2 : keeperLookup (keeper ++ [((m0.chat_id, aid), m0.id)]) (c, a)
                = none := keeperLookup_append_single_other keeper _ _ _ hk hkey
            rcases List.mem_cons.mp hm1 with h1 | h1
            · refine absurd (Prod.ext ?_ ?_) hkey
              · rw [← h1]; exact hc1
              · rw [← h1] at hma
                rw [hma] at ha1
                exact Option.some_injective _ ha1
            · rcases List.mem_cons.mp hm2 with h2 | h2
              · refine absurd (Prod.ext ?_ ?_) hkey
                · rw [← h2]; exact hc2
                · rw [← h2] at hma
                  rw [hma] at ha2
                  exact Option.some_injective _ ha2
              · exact ih _ c a hk2 m1 h1 m2 h2 hc1 ha1 hc2 ha2

/-- C8: over any delivery sequence in one process, all persisted
messages sharing a (chat id, album id) key bear one single message id;
the first delivery for a fresh key is never dropped (so that single id
is the first-seen one); and once a key is recorded, a later delivery is
dropped exactly when its message id differs from the recorded one — a
delivery bearing the recorded id passes the filter normally. -/
theorem album_first_seen_dedup :
    (∀ (ds : List AlbumMsg) (c a : Int) (m1 m2 : AlbumMsg),
      m1 ∈ keptAlbumMessages ds → m2 ∈ keptAlbumMessages ds →
      m1.chat_id = c → m1.media_album_id = some a →
      m2.chat_id = c → m2.media_album_id = some a → m1.id = m2.id) ∧
    (∀ (keeper : List ((Int × Int) × Int)) (m : AlbumMsg) (aid : Int),
      m.media_album_id = some aid →
      keeperLookup keeper (m.chat_id, aid) = none →
      (albumStep keeper m).1 = false) ∧
    (∀ (keeper : List ((Int × Int) × Int)) (m : AlbumMsg) (aid i : Int),
      m.media_album_id = some aid →
      keeperLookup keeper (m.chat_id, aid) = some i →
      ((albumStep keeper m).1 = true ↔ m.id ≠ i)) := by
  refine ⟨?_, ?_, ?_⟩
  · intro ds c a m1 m2 hm1 hm2 hc1 ha1 hc2 ha2
    exact albumFilter_kept_unique ds [] c a rfl m1 hm1 m2 hm2 hc1 ha1 hc2 ha2
  · intro keeper m aid hma hl
    rw [albumStep_fresh_key keeper m aid hma hl]
  · intro keeper m aid i hma hl
    rw [albumStep_known_key keeper m aid i hma hl]
    simp only [decide_eq_true_eq]
    exact ne_comm

/-- Witness for C8 at a concrete delivery sequence: chat 1, album 50,
first-seen message 7, then a duplicate delivery of message 8 and a
repeat of message 7. -/
theorem album_first_seen_dedup_witness :
    ((⟨1, 7, some 50⟩ : AlbumMsg).id = (⟨1, 7, some 50⟩ : AlbumMsg).id) ∧
    (albumStep [] ⟨1, 7, some 50⟩).1 = false ∧
    ((albumStep [((1, 50), 7)] ⟨1, 8, some 50⟩).1 = true ↔ (8 : Int) ≠ 7) :=
  ⟨album_first_seen_dedup.1 [⟨1, 7, some 50⟩, ⟨1, 8, some 50⟩, ⟨1, 7, some 50⟩] 1 50
      ⟨1, 7, some 50⟩ ⟨1, 7, some 50⟩ (by decide) (by decide) rfl rfl rfl rfl,
    album_first_seen_dedup.2.1 [] ⟨1, 7, some 50⟩ 50 rfl rfl,
    album_first_seen_dedup.2.2 [((1, 50), 7)] ⟨1, 8, some 50⟩ 50 7 rfl (by decide)⟩

/-- One entry of `interaction_info.reactions.reactions`: the numeric
`total_count` (or `none` when `Number(...)` is not finite) and whether
the reaction type is `reactionTypePaid`. -/
structure ReactionEntry where
  total_count : Option Int
  isPaid : Bool

/-- Result of `aggregateReactions`: the total/paid/free split, all
`none` when no usable data arrived or the counts sum to zero or less. -/
structure ReactionAgg where
  total : Option Int
  paid : Option Int
  free : Option Int
deriving DecidableEq

/-- The accumulation loop of `aggregateReactions`: fold over the
reaction entries, tracking (hasData, paid, free) — an entry without a
finite count is skipped, a paid entry adds to the paid bucket, any
other entry to the free bucket. -/
def reactionFold (rs : List ReactionEntry) : Bool × Int × Int :=
  rs.foldl (fun (st : Bool × Int × Int) r =>
    match r.total_count with
    | none => st
    | some cnt =>
      (true,
       st.2.1 + (if r.isPaid then cnt else 0),
       st.2.2 + (if r.isPaid then 0 else cnt))) (false, 0, 0)

/-- Model of `aggregateReactions(interactionInfo)`: walk the reaction list
(`none` models a missing or non-array list); when no usable entry was
seen or `paid + free <= 0`, every output is null, otherwise the total
is `paid + free` with its paid/free split. -/
def aggregateReactions (reactions : Option (List ReactionEntry)) : ReactionAgg :=
  match reactions with
  | none => ⟨none, none, none⟩
  | some rs =>
    if (!(reactionFold rs).1) || decide ((reactionFold rs).2.1 + (reactionFold rs).2.2 ≤ 0)
    then ⟨none, none, none⟩
    else ⟨some ((reactionFold rs).2.1 + (reactionFold rs).2.2),
          some (reactionFold rs).2.1, some (reactionFold rs).2.2⟩

/-- The fields of `message.interaction_info` that the counter mapping
reads (`reply_count` stands for `reply_info.reply_count`). -/
structure InteractionInfo where
  view_count : Option Int
  forward_count : Option Int
  reply_count : Option Int
  reactions : Option (List ReactionEntry)

/-- The engagement-counter normalization of `mapMessageToJson` (as fed
to `normalizeMessageRow` by `upsertMessages`): view, forward and reply
counts are kept only when finite and strictly positive, otherwise null;
the reaction triple is attached only when `aggregateReactions` produced
a finite total. -/
def mapMessageCounters (info : Option InteractionInfo) : Counters :=
  let agg := aggregateReactions (info.bind (fun i => i.reactions))
  { view_count :=
      match info.bind (fun i => i.view_count) with
      | some v => if v > 0 then some v else none
      | none => none
    forward_count :=
      match info.bind (fun i => i.forward_count) with
      | some v => if v > 0 then some v else none
      | none => none
    reply_count :=
      match info.bind (fun i => i.reply_count) with
      | some v => if v > 0 then some v else none
      | none => none
    reactions_total := agg.total
    reactions_paid := match agg.total with | some _ => agg.paid | none => none
    reactions_free := match agg.total with | some _ => agg.free | none => none }

/-- Interaction info with a single free reaction of count 3 and no
other counters. -/
def freeOnlyReactions : InteractionInfo := ⟨none, none, none, some [⟨some 3, false⟩]⟩

/-- C10 counterexample: a message with one free reaction of count 3
stores `reactions_paid = 0` — the numeric value 0 does reach the
persistence interface for the paid reaction counter, so zero is not
normalized to missing for every engagement counter. -/
theorem zero_counter_stored_counterexample :
    (mapMessageCounters (some freeOnlyReactions)).reactions_paid = some 0 ∧
    (mapMessageCounters (some freeOnlyReactions)).reactions_paid ≠ none := by
  constructor
  · rfl
  · decide

theorem aggregateReactions_total_pos (reactions : Option (List ReactionEntry)) :
    ∀ t, (aggregateReactions reactions).total = some t →
      0 < t ∧ ∃ p f, (aggregateReactions reactions).paid = some p ∧
        (aggregateReactions reactions).free = some f ∧ t = p + f := by
  intro t ht
  cases reactions with
  | none => cases ht
  | some rs =>
    by_cases hz :
        ((!(reactionFold rs).1) ||
          decide ((reactionFold rs).2.1 + (reactionFold rs).2.2 ≤ 0)) = true
    · rw [aggregateReactions, if_pos hz] at ht
      cases ht
    · rw [aggregateReactions, if_neg hz] at ht
      have hsome : some ((reactionFold rs).2.1 + (reactionFold rs).2.2) = some t := ht
      have hsum : (reactionFold rs).2.1 + (reactionFold rs).2.2 = t :=
        Option.some_injective _ hsome
      have hz' :
          ((!(reactionFold rs).1) ||
            decide ((reactionFold rs).2.1 + (reactionFold rs).2.2 ≤ 0)) = false :=
        Bool.eq_false_iff.mpr hz
      have hpos : 0 < (reactionFold rs).2.1 + (reactionFold rs).2.2 := by
        have h2 := (Bool.or_eq_false_iff.mp hz').2
        have := of_decide_eq_false h2
        omega
      refine ⟨by omega, (reactionFold rs).2.1, (reactionFold rs).2.2, ?_, ?_, by omega⟩
      · rw [aggregateReactions, if_neg hz]
      · rw [aggregateReactions, if_neg hz]

/-- C10 amended: at the persistence interface an incoming view,
forward or reply count that is zero or negative is normalized to
missing, and a reaction list whose summed counts are zero or less
yields missing reaction totals — so the value 0 is never stored for
`view_count`, `forward_count`, `reply_count` or `reactions_total`.
However, `reactions_paid` and `reactions_free` are stored as the split
of a positive total and either may individually be stored as 0. -/
theorem nonpositive_counters_normalized :
    (∀ info v, (mapMessageCounters info).view_count = some v → 0 < v) ∧
    (∀ info v, (mapMessageCounters info).forward_count = some v → 0 < v) ∧
    (∀ info v, (mapMessageCounters info).reply_count = some v → 0 < v) ∧
    (∀ info t, (mapMessageCounters info).reactions_total = some t →
      0 < t ∧ ∃ p f, (mapMessageCounters info).reactions_paid = some p ∧
        (mapMessageCounters info).reactions_free = some f ∧ t = p + f) ∧
    (∀ (i : InteractionInfo) (v : Int), i.view_count = some v → v ≤ 0 →
      (mapMessageCounters (some i)).view_count = none) ∧
    (∀ (i : InteractionInfo) (v : Int), i.forward_count = some v → v ≤ 0 →
      (mapMessageCounters (some i)).forward_count = none) ∧
    (∀ (i : InteractionInfo) (v : Int), i.reply_count = some v → v ≤ 0 →
      (mapMessageCounters (some i)).reply_count = none) := by
  refine ⟨?_, ?_, ?_, ?_, ?_, ?_, ?_⟩
  · intro info v h
    cases hb : info.bind (fun i => i.view_count) with
    | none =>
      have hdef : (mapMessageCounters info).view_count = none := by
        simp only [mapMessageCounters, hb]
      rw [hdef] at h
      cases h
    | some w =>
      have hdef : (mapMessageCounters info).view_count = if w > 0 then some w else none := by
        simp only [mapMessageCounters, hb]
      rw [hdef] at h
      by_cases hw : w > 0
      · rw [if_pos hw] at h
        cases h
        exact hw
      · rw [if_neg hw] at h; cases h
  · intro info v h
    cases hb : info.bind (fun i => i.forward_count) with
    | none =>
      have hdef : (mapMessageCounters info).forward_count = none := by
        simp only [mapMessageCounters, hb]
      rw [hdef] at h
      cases h
    | some w =>
      have hdef : (mapMessageCounters info).forward_count = if w > 0 then some w else none := by
        simp only [mapMessageCounters, hb]
      rw [hdef] at h
      by_cases hw : w > 0
      · rw [if_pos hw] at h
        cases h
        exact hw
      · rw [if_neg hw] at h; cases h
  · intro info v h
    cases hb : info.bind (fun i => i.reply_count) with
    | none =>
      have hdef : (mapMessageCounters info).reply_count = none := by
        simp only [mapMessageCounters, hb]
      rw [hdef] at h
      cases h
    | some w =>
      have hdef : (mapMessageCounters info).reply_count = if w > 0 then some w else none := by
        simp only [mapMessageCounters, hb]
      rw [hdef] at h
      by_cases hw : w > 0
      · rw [if_pos hw] at h
        cases h
        exact hw
      · rw [if_neg hw] at h; cases h
  · intro info t h
    have htot : (aggregateReactions (info.bind (fun i => i.reactions))).total = some t := h
    obtain ⟨hpos, p, f, hp, hf, hsum⟩ :=
      aggregateReactions_total_pos (info.bind (fun i => i.reactions)) t htot
    refine ⟨hpos, p, f, ?_, ?_, hsum⟩
    · show (match (aggregateReactions (info.bind (fun i => i.reactions))).total with
        | some _ => (aggregateReactions (info.bind (fun i => i.reactions))).paid
        | none => none) = some p
      rw [htot]
      exact hp
    · show (match (aggregateReactions (info.bind (fun i => i.reactions))).total with
        | some _ => (aggregateReactions (info.bind (fun i => i.reactions))).free
        | none => none) = some f
      rw [htot]
      exact hf
  · intro i v hv hle
    simp only [mapMessageCounters, Option.some_bind, hv]
    rw [if_neg (by omega)]
  · intro i v hv hle
    simp only [mapMessageCounters, Option.some_bind, hv]
    rw [if_neg (by omega)]
  · intro i v hv hle
    simp only [mapMessageCounters, Option.some_bind, hv]
    rw [if_neg (by omega)]

/-- Witness for C10's amended theorem at concrete inputs. -/
theorem nonpositive_counters_normalized_witness :
    (0 : Int) < 5 ∧
    (mapMessageCounters (some ⟨some 0, none, none, none⟩)).view_count = none :=
  ⟨nonpositive_counters_normalized.1 (some ⟨some 5, none, none, none⟩) 5 (by decide),
    nonpositive_counters_normalized.2.2.2.2.1 ⟨some 0, none, none, none⟩ 0 rfl (by decide)⟩

end EridParser
